import Mathlib

/-!
Verification of the spreadsheet reconciliation and merge engine of a
sales-lead dashboard (CSV parser, header normalizer, row mapper, sheet
fetcher fallback, and the lead reconciliation pass).

JavaScript objects with string values are embedded as ordered association
lists `Obj := List (String × String)`; an absent key behaves like the empty
string wherever the source only tests truthiness (`undefined`, `null` and
`''` are all falsy there, and every value the mapper produces is a string).
`Map` objects are embedded the same way with `Nat` indices into a lead
store standing for the object references the source keeps in its maps, so
in-place mutation of a matched lead is visible through every alias.
-/

namespace CRM

/-- JavaScript object / Map embedding: ordered key-value list. -/
abbrev Obj := List (String × String)

/-- First binding of a key, as `Map.get` / property read. -/
def getA {β : Type} : List (String × β) → String → Option β
  | [], _ => none
  | (k', v') :: rest, k => if k' = k then some v' else getA rest k

/-- `Map.set` / property write: update the first binding in place, else append. -/
def setA {β : Type} : List (String × β) → String → β → List (String × β)
  | [], k, v => [(k, v)]
  | (k', v') :: rest, k, v =>
    if k' = k then (k', v) :: rest else (k', v') :: setA rest k v

/-- Property read where an absent key reads as the empty string (falsy). -/
def getS (o : Obj) (k : String) : String := (getA o k).getD ""

/-- `Object.assign(t, s)`: copy every binding of `s` onto `t`, in order. -/
def objAssign (t s : Obj) : Obj := s.foldl (fun acc kv => setA acc kv.1 kv.2) t

/-- JS `a || b` on strings: `a` when non-empty, else `b`. -/
def firstNonEmpty (a b : String) : String := if a ≠ "" then a else b

/-- Does `pat` occur at the start of `l`? -/
def leadsWith : List Char → List Char → Bool
  | [], _ => true
  | _ :: _, [] => false
  | a :: as, b :: bs => a == b && leadsWith as bs

/-- Does `pat` occur somewhere inside `l`? (`String.prototype.includes`) -/
def hasSub (pat : List Char) : List Char → Bool
  | [] => pat.isEmpty
  | c :: tl => leadsWith pat (c :: tl) || hasSub pat tl

/-- `s.includes(pat)` on strings. -/
def strHas (s pat : String) : Bool := hasSub pat.data s.data

/-- `s.endsWith(pat)` on strings. -/
def strEndsWith (s pat : String) : Bool := leadsWith pat.data.reverse s.data.reverse

/-- The whitespace class of the source's `trim` / `\s` (ASCII part). -/
def isSpaceChar (c : Char) : Bool :=
  c == ' ' || c == '\t' || c == '\n' || c == '\r' || c == '\x0b' || c == '\x0c'

/-- `String.prototype.toLowerCase`, ASCII range. -/
def lowerChar (c : Char) : Char :=
  if 'A' ≤ c ∧ c ≤ 'Z' then Char.ofNat (c.toNat + 32) else c

/-- Characters kept by the normalizer's final strip: `[a-z0-9_]`. -/
def isAllowedChar (c : Char) : Bool :=
  (decide ('a' ≤ c) && decide (c ≤ 'z')) || (decide ('0' ≤ c) && decide (c ≤ '9')) || c == '_'

/-- `String.prototype.trim` on a character list. -/
def trimL (l : List Char) : List Char :=
  ((l.dropWhile isSpaceChar).reverse.dropWhile isSpaceChar).reverse

/-- `replace(/\s+/g, rep)`: each maximal whitespace run becomes one `rep`.
The boolean records whether the previous character was whitespace. -/
def collapseWsRuns (rep : Char) : Bool → List Char → List Char
  | _, [] => []
  | prev, c :: rest =>
    if isSpaceChar c then
      (if prev then collapseWsRuns rep true rest else rep :: collapseWsRuns rep true rest)
    else c :: collapseWsRuns rep false rest

/-- `s.trim()` on strings. -/
def trimStr (s : String) : String := ⟨trimL s.data⟩

/-- `s.toLowerCase()` on strings. -/
def lowerStr (s : String) : String := ⟨s.data.map lowerChar⟩

/-- `normalizeHeader` from `sheetSync.ts`: trim, lowercase, collapse
whitespace runs to `_`, strip everything outside `[a-z0-9_]`. -/
def normalizeHeader (h : String) : String :=
  ⟨(collapseWsRuns '_' false ((trimL h.data).map lowerChar)).filter isAllowedChar⟩

/-- `normalizeName` from the reconciliation engine: trim, lowercase,
collapse whitespace runs to a single space. -/
def normalizeName (n : String) : String :=
  ⟨collapseWsRuns ' ' false ((trimL n.data).map lowerChar)⟩

/-- The character loop of `parseLine` in `parseCsv`: `inQuotes` toggles on
every unescaped quote, `""` inside quotes decodes to one literal quote, a
comma splits only outside quotes. -/
def parseLineGo : Bool → String → List String → List Char → List String
  | _, cur, res, [] => res ++ [cur]
  | true, cur, res, '"' :: '"' :: rest => parseLineGo true (cur.push '"') res rest
  | inQ, cur, res, '"' :: rest => parseLineGo (!inQ) cur res rest
  | false, cur, res, ',' :: rest => parseLineGo false "" (res ++ [cur]) rest
  | inQ, cur, res, c :: rest => parseLineGo inQ (cur.push c) res rest

/-- `parseLine` from `parseCsv`: split one CSV line, trimming every field. -/
def parseLine (line : String) : List String :=
  (parseLineGo false "" [] line.data).map trimStr

/-- Split a character list on every newline character. -/
def splitLinesL : List Char → List (List Char)
  | [] => [[]]
  | '\n' :: rest => [] :: splitLinesL rest
  | c :: rest =>
    match splitLinesL rest with
    | [] => [[c]]
    | l :: ls => (c :: l) :: ls

/-- Drop a single carriage return at the end of a line, when present. -/
def dropTrailCR (l : List Char) : List Char :=
  match l.reverse with
  | '\r' :: t => t.reverse
  | _ => l

/-- `csv.split(/\r?\n/)`: split on newlines, eating one carriage return
directly before each newline. -/
def splitLines (csv : String) : List String :=
  (splitLinesL csv.data).map (fun l => ⟨dropTrailCR l⟩)

/-- `obj[headers[j]] = row[j] ?? ''` for every header position. -/
def buildRowObj (headers row : List String) : Obj :=
  headers.enum.foldl (fun o p => setA o p.2 (row.getD p.1 "")) []

/-- `parseCsv` from `sheetSync.ts`: drop blank lines, first line gives the
headers, every later line is zipped positionally against them. -/
def parseCsv (csv : String) : List Obj :=
  match (splitLines csv).filter (fun l => trimStr l ≠ "") with
  | [] => []
  | first :: restLines => restLines.map (fun ln => buildRowObj (parseLine first) (parseLine ln))

/-- The branch a normalized header falls into inside `mapSheetRowToLead`;
the constructors mirror the source's if/else chain in order. -/
inductive FieldClass where
  | fname | fphone | femail | faddr | fpost | fid | fsource | fassigned | fstatus | fother
deriving DecidableEq

/-- The if/else chain of `mapSheetRowToLead` classifying one normalized key. -/
def classify (key : String) : FieldClass :=
  if strHas key "name" then .fname
  else if strHas key "phone" || strHas key "mobile" then .fphone
  else if strHas key "email" then .femail
  else if strHas key "address" || strHas key "street" || strHas key "location" ||
          strHas key "place" || strHas key "area" || strHas key "city" then .faddr
  else if strHas key "post" || strHas key "pin" || strHas key "zip" ||
          strHas key "pincode" then .fpost
  else if key == "id" || strEndsWith key "_id" then .fid
  else if strHas key "source" then .fsource
  else if strHas key "assigned" then .fassigned
  else if strHas key "stage" || strHas key "status" || strHas key "lead_status" then .fstatus
  else .fother

/-- `mapped[k] = mapped[k] || val`. -/
def setFirstWins (m : Obj) (k v : String) : Obj :=
  setA m k (if getS m k ≠ "" then getS m k else v)

/-- One column of `mapSheetRowToLead`: the accumulator is the mapped object
so far together with the pending postcode side value. -/
def mapStep (acc : Obj × Option String) (kv : String × String) : Obj × Option String :=
  let key := normalizeHeader kv.1
  let val := kv.2
  match classify key with
  | .fname => (setFirstWins acc.1 "customer_name" val, acc.2)
  | .fphone => (setFirstWins acc.1 "customer_phone" val, acc.2)
  | .femail => (setFirstWins acc.1 "customer_email" val, acc.2)
  | .faddr =>
    (setA acc.1 "location"
      (if getS acc.1 "location" ≠ "" then getS acc.1 "location" ++ ", " ++ val else val), acc.2)
  | .fpost => (acc.1, some val)
  | .fid => (setA acc.1 "id" val, acc.2)
  | .fsource => (setFirstWins acc.1 "source" val, acc.2)
  | .fassigned => (setFirstWins acc.1 "assigned_to" val, acc.2)
  | .fstatus => (setFirstWins acc.1 "status" val, acc.2)
  | .fother => (setA acc.1 key val, acc.2)

/-- `mapSheetRowToLead` from `sheetSync.ts`: classify every column in
order, then append the collected postcode to `location` when truthy. -/
def mapSheetRowToLead (row : Obj) : Obj :=
  let r := row.foldl mapStep ([], none)
  match r.2 with
  | some pc =>
    if pc ≠ "" then
      (if getS r.1 "location" ≠ "" then setA r.1 "location" (getS r.1 "location" ++ ", " ++ pc)
       else setA r.1 "location" pc)
    else r.1
  | none => r.1

/-- One attempt against a candidate CSV endpoint as the fetcher sees it:
the fetch call either throws or yields a response status and body text. -/
inductive FetchOutcome where
  | netError (msg : String)
  | response (ok : Bool) (body : String)

/-- `tryFetch` from `fetchGoogleSheetLeads`: a network error, a non-success
status, or a body whose trimmed text starts with `<` are all failures. -/
def tryFetch : FetchOutcome → Except String String
  | .netError msg => .error msg
  | .response ok body =>
    if !ok then .error "Failed to fetch sheet CSV"
    else if leadsWith "<".data (trimStr body).data then
      .error "Received HTML instead of CSV. Make sure the sheet is published to web and publicly accessible."
    else .ok body

/-- The candidate-endpoint cascade of `fetchGoogleSheetLeads`, given the
outcomes of the published-to-web endpoint and the export endpoint: fall
back to the second on any first failure, raise the descriptive error only
when both fail, and reject an empty CSV body afterwards. -/
def fetchCsvCascade (pubOutcome exportOutcome : FetchOutcome) : Except String String :=
  match tryFetch pubOutcome with
  | .ok csv => if csv = "" then .error "Empty CSV" else .ok csv
  | .error _ =>
    match tryFetch exportOutcome with
    | .ok csv => if csv = "" then .error "Empty CSV" else .ok csv
    | .error e2 =>
      .error ("Failed to fetch Google Sheet CSV. Ensure the sheet is public or published to web. ("
        ++ e2 ++ ")")

/-- A persistence submission scheduled by the merge pass (the source fires
these asynchronously; their later completion is outside one pass). -/
inductive SyncAction where
  | updateLead (idx : Nat) (payload : Obj)
  | insertLead (idx : Nat) (payload : Obj)
deriving DecidableEq

/-- State of one reconciliation pass of `doSync`: `store` holds every lead
object ever seen in the pass (indices play the role of object references),
`order` is the `newLeads` array as indices into `store`, and the four maps
are the match indices. -/
structure SyncState where
  store : List Obj
  order : List Nat
  byId : List (String × Nat)
  byEmail : List (String × Nat)
  byPhone : List (String × Nat)
  byName : List (String × Nat)
  skipped : Nat
  actions : List SyncAction
deriving DecidableEq

/-- Register one existing lead in the four match indices (`current.forEach`
in `doSync`), guarded by truthiness of each field. -/
def regLead (st : SyncState) (i : Nat) (l : Obj) : SyncState :=
  let st1 := if getS l "id" ≠ "" then { st with byId := setA st.byId (getS l "id") i } else st
  let st2 := if getS l "customer_email" ≠ "" then
    { st1 with byEmail := setA st1.byEmail (lowerStr (getS l "customer_email")) i } else st1
  let st3 := if getS l "customer_phone" ≠ "" then
    { st2 with byPhone := setA st2.byPhone (getS l "customer_phone") i } else st2
  if getS l "customer_name" ≠ "" then
    { st3 with byName := setA st3.byName (normalizeName (getS l "customer_name")) i } else st3

/-- Build the initial pass state over the current lead collection. -/
def buildMaps (current : List Obj) : SyncState :=
  current.enum.foldl (fun st p => regLead st p.1 p.2)
    { store := current, order := List.range current.length,
      byId := [], byEmail := [], byPhone := [], byName := [], skipped := 0, actions := [] }

/-- `s.id ? String(s.id) : null` (the empty string stands for null). -/
def sidOf (s : Obj) : String := getS s "id"

/-- `(s.customer_email || s.email || '').toLowerCase()`. -/
def emailOf (s : Obj) : String :=
  lowerStr (firstNonEmpty (getS s "customer_email") (getS s "email"))

/-- `(s.customer_phone || s.phone || '') ? String(...).trim() : ''`. -/
def phoneOf (s : Obj) : String :=
  if firstNonEmpty (getS s "customer_phone") (getS s "phone") ≠ "" then
    trimStr (firstNonEmpty (getS s "customer_phone") (getS s "phone"))
  else ""

/-- `normalizeName(s.customer_name || s.name || '')`. -/
def nameKeyOf (s : Obj) : String :=
  normalizeName (firstNonEmpty (getS s "customer_name") (getS s "name"))

/-- The match-resolution chain of `doSync`: identifier, then email, then
phone, then normalized name — first hit wins. -/
def resolveLead (st : SyncState) (sid email phone nameNorm : String) : Option Nat :=
  if sid ≠ "" ∧ (getA st.byId sid).isSome then getA st.byId sid
  else if email ≠ "" ∧ (getA st.byEmail email).isSome then getA st.byEmail email
  else if phone ≠ "" ∧ (getA st.byPhone phone).isSome then getA st.byPhone phone
  else if nameNorm ≠ "" ∧ (getA st.byName nameNorm).isSome then getA st.byName nameNorm
  else none

/-- The allow-listed update payload scheduled for a matched row, each field
included only when truthy in the mapped row. -/
def updatePayload (s : Obj) : Obj :=
  let p1 : Obj := if getS s "customer_name" ≠ "" then [("customer_name", getS s "customer_name")] else []
  let p2 := if firstNonEmpty (getS s "customer_phone") (getS s "phone") ≠ "" then
    p1 ++ [("customer_phone", firstNonEmpty (getS s "customer_phone") (getS s "phone"))] else p1
  let p3 := if firstNonEmpty (getS s "customer_email") (getS s "email") ≠ "" then
    p2 ++ [("customer_email", firstNonEmpty (getS s "customer_email") (getS s "email"))] else p2
  let p4 := if getS s "location" ≠ "" then p3 ++ [("location", getS s "location")] else p3
  let p5 := if firstNonEmpty (getS s "source") (getS s "source_id") ≠ "" then
    p4 ++ [("source_id", firstNonEmpty (getS s "source") (getS s "source_id"))] else p4
  let p6 := if getS s "assigned_to" ≠ "" then p5 ++ [("assigned_to", getS s "assigned_to")] else p5
  if getS s "status" ≠ "" then p6 ++ [("status", getS s "status")] else p6

/-- The minimal new lead object built for an unmatched row (`now` is the
current-time stamp; the empty string stands for `undefined`/`null`). -/
def mkNewLead (s : Obj) (now : String) : Obj :=
  [("id", getS s "id"),
   ("customer_name", firstNonEmpty (getS s "customer_name") (getS s "name")),
   ("customer_phone", firstNonEmpty (getS s "customer_phone") (getS s "phone")),
   ("customer_email", firstNonEmpty (getS s "customer_email") (getS s "email")),
   ("location", getS s "location"),
   ("source_id", firstNonEmpty (getS s "source") (getS s "source_id")),
   ("assigned_to", getS s "assigned_to"),
   ("status", firstNonEmpty (getS s "status") "new"),
   ("created_at", now),
   ("updated_at", now)]

/-- The insert payload submitted for a new lead. -/
def insertPayload (nl : Obj) : Obj :=
  [("customer_name", getS nl "customer_name"),
   ("customer_phone", getS nl "customer_phone"),
   ("customer_email", getS nl "customer_email"),
   ("location", getS nl "location"),
   ("source_id", getS nl "source_id"),
   ("assigned_to", getS nl "assigned_to"),
   ("status", getS nl "status")]

/-- One mapped row of the `doSync` merge pass: skip unidentifiable rows,
merge a resolved match in place (scheduling an update when the merged lead
has an identifier and the payload is non-empty), otherwise prepend a new
lead, register its normalized name, and schedule its insertion. -/
def syncStep (now : String) (st : SyncState) (s : Obj) : SyncState :=
  let email := emailOf s
  let phone := phoneOf s
  let sid := sidOf s
  let nameNorm := nameKeyOf s
  if sid = "" ∧ email = "" ∧ phone = "" ∧ nameNorm = "" then
    { st with skipped := st.skipped + 1 }
  else
    match resolveLead st sid email phone nameNorm with
    | some i =>
      let merged := objAssign (st.store.getD i []) s
      { st with store := st.store.set i merged,
                actions :=
                  if getS merged "id" ≠ "" ∧ updatePayload s ≠ [] then
                    st.actions ++ [SyncAction.updateLead i (updatePayload s)]
                  else st.actions }
    | none =>
      let newLead := mkNewLead s now
      let idx := st.store.length
      { st with store := st.store ++ [newLead],
                order := idx :: st.order,
                byName :=
                  if getS newLead "customer_name" ≠ "" then
                    setA st.byName (normalizeName (getS newLead "customer_name")) idx
                  else st.byName,
                actions := st.actions ++ [SyncAction.insertLead idx (insertPayload newLead)] }

/-- The synchronous merge pass of `doSync` over one fetched batch: the
updated collection (in `newLeads` order), the skipped-row count, and the
persistence submissions it scheduled. An empty batch leaves the collection
untouched (the source returns before calling `setLeads`). -/
def doSync (current sheetLeads : List Obj) (now : String) : List Obj × Nat × List SyncAction :=
  if sheetLeads.isEmpty then (current, 0, [])
  else
    let fin := sheetLeads.foldl (syncStep now) (buildMaps current)
    (fin.order.map (fun i => fin.store.getD i []), fin.skipped, fin.actions)

/-- The location accumulator of the row mapper: `mapped['location'] =
mapped['location'] ? mapped['location'] + ", " + val : val`. -/
def joinLoc (acc v : String) : String := if acc ≠ "" then acc ++ ", " ++ v else v

/-- The values of the columns of a row falling into one classification
branch, in header-encounter order. -/
def clsVals (c : FieldClass) (row : Obj) : List String :=
  row.filterMap (fun kv => if classify (normalizeHeader kv.1) = c then some kv.2 else none)

/-- The canonical field written by each first-wins branch of the mapper. -/
def fieldTarget : FieldClass → Option String
  | .fname => some "customer_name"
  | .fphone => some "customer_phone"
  | .femail => some "customer_email"
  | .fsource => some "source"
  | .fassigned => some "assigned_to"
  | .fstatus => some "status"
  | _ => none

/-! ### Normalizer lemmas -/

theorem lowerChar_of_allowed {c : Char} (h : isAllowedChar c = true) : lowerChar c = c := by
  unfold lowerChar
  split
  · rename_i hAZ
    simp only [isAllowedChar, Bool.or_eq_true, Bool.and_eq_true, decide_eq_true_eq,
      beq_iff_eq] at h
    rcases h with (⟨h1, _⟩ | ⟨_, h2⟩) | h3
    · exact absurd (le_trans h1 hAZ.2) (by decide)
    · exact absurd (le_trans hAZ.1 h2) (by decide)
    · subst h3; exact absurd hAZ.2 (by decide)
  · rfl

theorem not_space_of_allowed {c : Char} (h : isAllowedChar c = true) : isSpaceChar c = false := by
  cases hs : isSpaceChar c with
  | false => rfl
  | true =>
    simp only [isSpaceChar, Bool.or_eq_true, beq_iff_eq] at hs
    rcases hs with ((((h1 | h1) | h1) | h1) | h1) | h1 <;> subst h1 <;>
      simp [isAllowedChar] at h

theorem dropWhile_space_of_allowed {l : List Char} (h : ∀ c ∈ l, isAllowedChar c = true) :
    l.dropWhile isSpaceChar = l := by
  cases l with
  | nil => rfl
  | cons c tl =>
    rw [List.dropWhile_cons_of_neg]
    simp [not_space_of_allowed (h c (by simp))]

theorem trimL_of_allowed {l : List Char} (h : ∀ c ∈ l, isAllowedChar c = true) :
    trimL l = l := by
  unfold trimL
  rw [dropWhile_space_of_allowed h,
      dropWhile_space_of_allowed (fun c hc => h c (List.mem_reverse.mp hc)),
      List.reverse_reverse]

theorem map_lower_of_allowed {l : List Char} (h : ∀ c ∈ l, isAllowedChar c = true) :
    l.map lowerChar = l := by
  induction l with
  | nil => rfl
  | cons c tl ih =>
    simp only [List.map_cons, lowerChar_of_allowed (h c (by simp)),
      ih (fun d hd => h d (by simp [hd])), List.cons.injEq, and_self]

theorem collapse_of_allowed (rep : Char) {l : List Char}
    (h : ∀ c ∈ l, isAllowedChar c = true) : collapseWsRuns rep false l = l := by
  induction l with
  | nil => rfl
  | cons c tl ih =>
    unfold collapseWsRuns
    rw [if_neg (by simp [not_space_of_allowed (h c (by simp))])]
    rw [ih (fun d hd => h d (by simp [hd]))]

theorem filter_of_allowed {l : List Char} (h : ∀ c ∈ l, isAllowedChar c = true) :
    l.filter isAllowedChar = l := by
  induction l with
  | nil => rfl
  | cons c tl ih =>
    rw [List.filter_cons_of_pos (h c (by simp)), ih (fun d hd => h d (by simp [hd]))]

theorem allowed_of_mem_normalizeHeader {h : String} {c : Char}
    (hc : c ∈ (normalizeHeader h).data) : isAllowedChar c = true := by
  unfold normalizeHeader at hc
  exact (List.mem_filter.mp hc).2

/-- C9: Header normalization (trim, lowercase, collapse whitespace runs to
one underscore, strip every character outside `[a-z0-9_]`) is a pure
function and idempotent — `normalizeHeader (normalizeHeader h) =
normalizeHeader h` for every string — and `normalizeHeader "Full  Name!"`
is `"full_name"`. -/
theorem normalizeHeader_idempotent :
    (∀ h : String, normalizeHeader (normalizeHeader h) = normalizeHeader h) ∧
    normalizeHeader "Full  Name!" = "full_name" := by
  constructor
  · intro h
    have hall : ∀ c ∈ (normalizeHeader h).data, isAllowedChar c = true :=
      fun c hc => allowed_of_mem_normalizeHeader hc
    conv_lhs => rw [normalizeHeader]
    rw [trimL_of_allowed hall, map_lower_of_allowed hall, collapse_of_allowed _ hall,
        filter_of_allowed hall]
  · decide

/-- C7: the CSV parser keeps a comma inside double quotes as field text,
decodes an escaped doubled quote to one literal quote, and toggles quoting
state on every unescaped quote: the header line `name,note` followed by
the row `"Jane, A","She said ""hi"""` parses to a single record mapping
`name` to `Jane, A` and `note` to `She said "hi"`. -/
theorem parseCsv_quoted_fields :
    parseCsv "name,note\n\"Jane, A\",\"She said \"\"hi\"\"\"" =
      [[("name", "Jane, A"), ("note", "She said \"hi\"")]] := by
  decide

/-! ### Association-list lemmas -/

theorem getA_setA_self {β : Type} (m : List (String × β)) (k : String) (v : β) :
    getA (setA m k v) k = some v := by
  induction m with
  | nil => simp [setA, getA]
  | cons kv rest ih =>
    by_cases h : kv.1 = k
    · simp [setA, getA, h]
    · simpa [setA, getA, h] using ih

theorem getA_setA_ne {β : Type} (m : List (String × β)) {k k' : String} (v : β)
    (h : k ≠ k') : getA (setA m k' v) k = getA m k := by
  induction m with
  | nil => simp [setA, getA, Ne.symm h]
  | cons kv rest ih =>
    by_cases hk : kv.1 = k'
    · simp [setA, getA, hk, Ne.symm h]
    · by_cases hk2 : kv.1 = k <;> simp [setA, getA, hk, hk2, ih, h]

theorem objAssign_cons (t : Obj) (kv : String × String) (rest : Obj) :
    objAssign t (kv :: rest) = objAssign (setA t kv.1 kv.2) rest := rfl

theorem getA_objAssign_of_none (t : Obj) (k : String) :
    ∀ s : Obj, getA s k = none → getA (objAssign t s) k = getA t k := by
  intro s
  induction s generalizing t with
  | nil => intro _; rfl
  | cons kv rest ih =>
    intro h
    simp only [getA] at h
    by_cases hk : kv.1 = k
    · simp [hk] at h
    · rw [if_neg hk] at h
      rw [objAssign_cons, ih (setA t kv.1 kv.2) h, getA_setA_ne t kv.2 (Ne.symm hk)]

theorem getA_eq_none_of_not_mem {β : Type} {s : List (String × β)} {k : String}
    (h : k ∉ s.map Prod.fst) : getA s k = none := by
  induction s with
  | nil => rfl
  | cons kv rest ih =>
    simp only [List.map_cons, List.mem_cons] at h
    push_neg at h
    simp [getA, Ne.symm h.1, ih h.2]

theorem getA_objAssign_of_some (t : Obj) (k : String) (v : String) :
    ∀ s : Obj, (s.map Prod.fst).Nodup → getA s k = some v →
      getA (objAssign t s) k = some v := by
  intro s
  induction s generalizing t with
  | nil => intro _ h; simp [getA] at h
  | cons kv rest ih =>
    intro hnd h
    simp only [List.map_cons, List.nodup_cons] at hnd
    simp only [getA] at h
    by_cases hk : kv.1 = k
    · rw [if_pos hk] at h
      obtain rfl : kv.2 = v := by simpa using h
      have hrest : getA rest k = none := getA_eq_none_of_not_mem (hk ▸ hnd.1)
      rw [objAssign_cons, getA_objAssign_of_none (setA t kv.1 kv.2) k rest hrest, hk,
          getA_setA_self]
    · rw [if_neg hk] at h
      exact ih (setA t kv.1 kv.2) hnd.2 h

/-! ### Reconciliation-pass frame lemmas -/

theorem regLead_frame (st : SyncState) (i : Nat) (l : Obj) :
    (regLead st i l).store = st.store ∧ (regLead st i l).order = st.order ∧
    (regLead st i l).skipped = st.skipped ∧ (regLead st i l).actions = st.actions := by
  unfold regLead
  split_ifs <;> simp

theorem foldl_regLead_frame (ps : List (Nat × Obj)) : ∀ st : SyncState,
    (ps.foldl (fun st p => regLead st p.1 p.2) st).store = st.store ∧
    (ps.foldl (fun st p => regLead st p.1 p.2) st).order = st.order ∧
    (ps.foldl (fun st p => regLead st p.1 p.2) st).skipped = st.skipped ∧
    (ps.foldl (fun st p => regLead st p.1 p.2) st).actions = st.actions := by
  induction ps with
  | nil => exact fun st => ⟨rfl, rfl, rfl, rfl⟩
  | cons p rest ih =>
    intro st
    rw [List.foldl_cons]
    obtain ⟨f1, f2, f3, f4⟩ := regLead_frame st p.1 p.2
    obtain ⟨g1, g2, g3, g4⟩ := ih (regLead st p.1 p.2)
    exact ⟨g1.trans f1, g2.trans f2, g3.trans f3, g4.trans f4⟩

theorem buildMaps_frame (current : List Obj) :
    (buildMaps current).store = current ∧
    (buildMaps current).order = List.range current.length ∧
    (buildMaps current).skipped = 0 ∧ (buildMaps current).actions = [] := by
  unfold buildMaps
  obtain ⟨g1, g2, g3, g4⟩ := foldl_regLead_frame current.enum
    { store := current, order := List.range current.length, byId := [],
      byEmail := [], byPhone := [], byName := [], skipped := 0, actions := [] }
  exact ⟨g1, g2, g3, g4⟩

theorem map_getD_range {α : Type} (l : List α) (d : α) :
    (List.range l.length).map (fun i => l.getD i d) = l := by
  induction l with
  | nil => rfl
  | cons a tl ih =>
    rw [List.length_cons, List.range_succ_eq_map, List.map_cons, List.map_map]
    have hc : ((fun i => (a :: tl).getD i d) ∘ Nat.succ) = fun i => tl.getD i d := by
      funext i
      simp [List.getD_cons_succ]
    rw [hc]
    simp only [List.getD_cons_zero]
    rw [ih]

/-- C4: a mapped row whose four matching keys (id, lowercased email,
trimmed phone, normalized name) are all empty is skipped: the step only
increments the skipped counter, and a one-row batch of it leaves the
collection unchanged, counts one skip, and schedules no persistence. -/
theorem doSync_skips_unidentifiable (current : List Obj) (s : Obj) (now : String)
    (h : sidOf s = "" ∧ emailOf s = "" ∧ phoneOf s = "" ∧ nameKeyOf s = "") :
    (∀ st : SyncState, syncStep now st s = { st with skipped := st.skipped + 1 }) ∧
    doSync current [s] now = (current, 1, []) := by
  have hstep : ∀ st : SyncState, syncStep now st s = { st with skipped := st.skipped + 1 } := by
    intro st
    unfold syncStep
    rw [if_pos h]
  refine ⟨hstep, ?_⟩
  unfold doSync
  rw [if_neg (by simp), List.foldl_cons, List.foldl_nil, hstep (buildMaps current)]
  obtain ⟨hs, ho, hk, ha⟩ := buildMaps_frame current
  simp only [hs, ho, hk, ha]
  rw [map_getD_range]

/-- C4 witness. -/
theorem doSync_skips_unidentifiable_witness :
    doSync [[("id", "L1")]] [[("note", "x")]] "t" = ([[("id", "L1")]], 1, []) :=
  (doSync_skips_unidentifiable [[("id", "L1")]] [("note", "x")] "t" (by decide)).2

/-- C10: when a mapped row resolves to an existing lead, the in-place
merge is `Object.assign`: the updated collection replaces that lead with
the assign-merge, every key present in the mapped row (empty-string values
included) takes the row's value on the merged lead, and only keys absent
from the mapped row keep the existing lead's value. -/
theorem doSync_merge_assigns (current : List Obj) (s : Obj) (now : String) (i : Nat)
    (hns : ¬(sidOf s = "" ∧ emailOf s = "" ∧ phoneOf s = "" ∧ nameKeyOf s = ""))
    (hres : resolveLead (buildMaps current) (sidOf s) (emailOf s) (phoneOf s) (nameKeyOf s)
      = some i)
    (hnd : (s.map Prod.fst).Nodup) :
    (doSync current [s] now).1 = current.set i (objAssign (current.getD i []) s) ∧
    (∀ k v, getA s k = some v → getA (objAssign (current.getD i []) s) k = some v) ∧
    (∀ k, getA s k = none →
      getA (objAssign (current.getD i []) s) k = getA (current.getD i []) k) := by
  obtain ⟨hs, ho, _, _⟩ := buildMaps_frame current
  refine ⟨?_, fun k v hk => getA_objAssign_of_some _ k v s hnd hk,
    fun k hk => getA_objAssign_of_none _ k s hk⟩
  unfold doSync
  rw [if_neg (by simp), List.foldl_cons, List.foldl_nil]
  unfold syncStep
  rw [if_neg hns, hres]
  simp only [hs, ho]
  have hlen : current.length = (current.set i (objAssign (current.getD i []) s)).length :=
    (List.length_set ..).symm
  rw [hlen, map_getD_range]

/-- C10 witness: a present-but-empty phone in the mapped row overwrites
the existing lead's non-empty phone. -/
theorem doSync_merge_assigns_witness :
    (doSync [[("id", "L1"), ("customer_name", "Old"), ("customer_phone", "123")]]
      [[("id", "L1"), ("customer_phone", "")]] "t").1
      = [[("id", "L1"), ("customer_name", "Old"), ("customer_phone", "")]] := by
  have h := doSync_merge_assigns
    [[("id", "L1"), ("customer_name", "Old"), ("customer_phone", "123")]]
    [("id", "L1"), ("customer_phone", "")] "t" 0 (by decide) (by decide) (by decide)
  rw [h.1]; decide

/-- C1: the reconciliation engine resolves an existing lead by trying the
keys in strict priority order — identifier, then lowercased email, then
phone, then normalized name — taking the first index hit without
cross-checking other keys, and a row whose id equals an existing lead's
identifier matches that lead even when its email differs. -/
theorem resolveLead_priority :
    (∀ (st : SyncState) (sid em ph nm : String) (i : Nat),
      sid ≠ "" → getA st.byId sid = some i → resolveLead st sid em ph nm = some i) ∧
    (∀ (st : SyncState) (sid em ph nm : String) (i : Nat),
      (sid = "" ∨ getA st.byId sid = none) → em ≠ "" → getA st.byEmail em = some i →
      resolveLead st sid em ph nm = some i) ∧
    (∀ (st : SyncState) (sid em ph nm : String) (i : Nat),
      (sid = "" ∨ getA st.byId sid = none) → (em = "" ∨ getA st.byEmail em = none) →
      ph ≠ "" → getA st.byPhone ph = some i → resolveLead st sid em ph nm = some i) ∧
    (∀ (st : SyncState) (sid em ph nm : String) (i : Nat),
      (sid = "" ∨ getA st.byId sid = none) → (em = "" ∨ getA st.byEmail em = none) →
      (ph = "" ∨ getA st.byPhone ph = none) → nm ≠ "" → getA st.byName nm = some i →
      resolveLead st sid em ph nm = some i) ∧
    (doSync [[("id", "L1"), ("customer_email", "a@x.com")]]
      [[("id", "L1"), ("customer_email", "b@y.com")]] "t").1
      = [[("id", "L1"), ("customer_email", "b@y.com")]] := by
  refine ⟨?_, ?_, ?_, ?_, by decide⟩
  · intro st sid em ph nm i h1 h2
    unfold resolveLead
    rw [if_pos ⟨h1, by simp [h2]⟩, h2]
  · intro st sid em ph nm i h1 h2 h3
    unfold resolveLead
    rw [if_neg (by rcases h1 with h | h <;> simp [h]), if_pos ⟨h2, by simp [h3]⟩, h3]
  · intro st sid em ph nm i h1 h2 h3 h4
    unfold resolveLead
    rw [if_neg (by rcases h1 with h | h <;> simp [h]),
        if_neg (by rcases h2 with h | h <;> simp [h]), if_pos ⟨h3, by simp [h4]⟩, h4]
  · intro st sid em ph nm i h1 h2 h3 h4 h5
    unfold resolveLead
    rw [if_neg (by rcases h1 with h | h <;> simp [h]),
        if_neg (by rcases h2 with h | h <;> simp [h]),
        if_neg (by rcases h3 with h | h <;> simp [h]), if_pos ⟨h4, by simp [h5]⟩, h5]

/-- C1 witness: an identifier hit wins even though the email index points
to a different lead. -/
theorem resolveLead_priority_witness :
    resolveLead ⟨[], [], [("L1", 0)], [("b@y.com", 5)], [], [], 0, []⟩
      "L1" "b@y.com" "" "" = some 0 :=
  resolveLead_priority.1 ⟨[], [], [("L1", 0)], [("b@y.com", 5)], [], [], 0, []⟩
    "L1" "b@y.com" "" "" 0 (by decide) (by decide)

/-- The new-lead branch also registers the lead: C3/C2 shape lemma for an
unresolved row — the collection index gains the new store slot in front and
the name index registers the new lead's normalized name when truthy. -/
theorem syncStep_insert_shape (now : String) (st : SyncState) (s : Obj)
    (hns : ¬(sidOf s = "" ∧ emailOf s = "" ∧ phoneOf s = "" ∧ nameKeyOf s = ""))
    (hres : resolveLead st (sidOf s) (emailOf s) (phoneOf s) (nameKeyOf s) = none) :
    (syncStep now st s).store = st.store ++ [mkNewLead s now] ∧
    (syncStep now st s).order = st.store.length :: st.order ∧
    (syncStep now st s).byName =
      (if getS (mkNewLead s now) "customer_name" ≠ "" then
        setA st.byName (normalizeName (getS (mkNewLead s now) "customer_name")) st.store.length
      else st.byName) := by
  unfold syncStep
  rw [if_neg hns, hres]
  exact ⟨rfl, rfl, rfl⟩

theorem syncStep_merge_order (now : String) (st : SyncState) (s : Obj) (i : Nat)
    (hns : ¬(sidOf s = "" ∧ emailOf s = "" ∧ phoneOf s = "" ∧ nameKeyOf s = ""))
    (hres : resolveLead st (sidOf s) (emailOf s) (phoneOf s) (nameKeyOf s) = some i) :
    (syncStep now st s).order = st.order := by
  unfold syncStep
  rw [if_neg hns, hres]

/-- C3 counterexample: a row carrying `id=X` that matches no existing lead
produces a new lead whose identifier is the row's `X`, not an absent
placeholder. -/
theorem newLead_keeps_row_id :
    getS ((doSync [] [[("id", "X"), ("customer_name", "Bob")]] "t").1.headD []) "id" = "X" := by
  decide

/-- C3 (amended): a mapped row resolving to no existing lead constructs a
new lead whose identifier is the row's id when the row supplies one and
absent otherwise, whose status is the row's status if supplied and `new`
otherwise, with current-time created and updated stamps, and prepends it
to the in-memory collection. -/
theorem doSync_new_lead (current : List Obj) (s : Obj) (now : String)
    (hns : ¬(sidOf s = "" ∧ emailOf s = "" ∧ phoneOf s = "" ∧ nameKeyOf s = ""))
    (hres : resolveLead (buildMaps current) (sidOf s) (emailOf s) (phoneOf s) (nameKeyOf s)
      = none) :
    (doSync current [s] now).1 = mkNewLead s now :: current ∧
    getS (mkNewLead s now) "id" = getS s "id" ∧
    getS (mkNewLead s now) "status"
      = (if getS s "status" ≠ "" then getS s "status" else "new") ∧
    getS (mkNewLead s now) "created_at" = now ∧
    getS (mkNewLead s now) "updated_at" = now := by
  obtain ⟨hs, ho, _, _⟩ := buildMaps_frame current
  refine ⟨?_, rfl, rfl, rfl, rfl⟩
  unfold doSync
  rw [if_neg (by simp), List.foldl_cons, List.foldl_nil]
  obtain ⟨g1, g2, _⟩ := syncStep_insert_shape now (buildMaps current) s hns hres
  dsimp only
  rw [g1, g2, hs, ho, List.map_cons]
  have hhd : (current ++ [mkNewLead s now]).getD current.length [] = mkNewLead s now := by
    rw [List.getD_append_right _ _ _ _ (le_refl current.length)]
    simp
  have htl : (List.range current.length).map (fun i => (current ++ [mkNewLead s now]).getD i [])
      = current := by
    rw [List.map_congr_left (fun i hi => List.getD_append _ _ _ _ (List.mem_range.mp hi))]
    exact map_getD_range current []
  rw [hhd, htl]

/-- C3 witness. -/
theorem doSync_new_lead_witness :
    (doSync [] [[("customer_name", "Bob")]] "t").1 = [mkNewLead [("customer_name", "Bob")] "t"] :=
  (doSync_new_lead [] [("customer_name", "Bob")] "t" (by decide) (by decide)).1

/-- C2: two rows sharing one normalized name and carrying no id, email or
phone produce exactly one new lead: the first insert registers the name in
the name index, so the second row resolves as a match and is merged. -/
theorem doSync_name_dedup (current : List Obj) (s1 s2 : Obj) (now : String) (nm : String)
    (h1i : sidOf s1 = "") (h1e : emailOf s1 = "") (h1p : phoneOf s1 = "")
    (h2i : sidOf s2 = "") (h2e : emailOf s2 = "") (h2p : phoneOf s2 = "")
    (h1n : nameKeyOf s1 = nm) (h2n : nameKeyOf s2 = nm) (hnm : nm ≠ "")
    (hmiss : getA (buildMaps current).byName nm = none) :
    ((doSync current [s1, s2] now).1).length = current.length + 1 := by
  obtain ⟨hs, ho, _, _⟩ := buildMaps_frame current
  have hns1 : ¬(sidOf s1 = "" ∧ emailOf s1 = "" ∧ phoneOf s1 = "" ∧ nameKeyOf s1 = "") :=
    fun h => hnm (h1n.symm.trans h.2.2.2)
  have hns2 : ¬(sidOf s2 = "" ∧ emailOf s2 = "" ∧ phoneOf s2 = "" ∧ nameKeyOf s2 = "") :=
    fun h => hnm (h2n.symm.trans h.2.2.2)
  have hres1 : resolveLead (buildMaps current) (sidOf s1) (emailOf s1) (phoneOf s1)
      (nameKeyOf s1) = none := by
    rw [h1i, h1e, h1p, h1n]
    unfold resolveLead
    rw [if_neg (by simp), if_neg (by simp), if_neg (by simp), if_neg (by simp [hmiss])]
  have hcn1 : normalizeName (getS (mkNewLead s1 now) "customer_name") = nm := h1n
  have hcne : getS (mkNewLead s1 now) "customer_name" ≠ "" := by
    intro h0
    exact hnm (by rw [← hcn1, h0]; rfl)
  obtain ⟨g1, g2, g3⟩ := syncStep_insert_shape now (buildMaps current) s1 hns1 hres1
  have hby : (syncStep now (buildMaps current) s1).byName
      = setA (buildMaps current).byName nm (buildMaps current).store.length := by
    rw [g3, if_pos hcne, hcn1]
  have hres2 : resolveLead (syncStep now (buildMaps current) s1) (sidOf s2) (emailOf s2)
      (phoneOf s2) (nameKeyOf s2) = some (buildMaps current).store.length := by
    rw [h2i, h2e, h2p, h2n]
    unfold resolveLead
    rw [if_neg (by simp), if_neg (by simp), if_neg (by simp), hby,
        if_pos ⟨hnm, by rw [getA_setA_self]; rfl⟩, getA_setA_self]
  unfold doSync
  rw [if_neg (by simp), List.foldl_cons, List.foldl_cons, List.foldl_nil]
  dsimp only
  rw [List.length_map, syncStep_merge_order now _ s2 _ hns2 hres2, g2, ho]
  simp

/-- C2 witness: the two rows identify the same person only by normalized
name (`John Doe` and ` john  DOE `). -/
theorem doSync_name_dedup_witness :
    ((doSync [] [[("customer_name", "John Doe")], [("name", " john  DOE ")]] "t").1).length
      = ([] : List Obj).length + 1 :=
  doSync_name_dedup [] [("customer_name", "John Doe")] [("name", " john  DOE ")] "t"
    "john doe" (by decide) (by decide) (by decide) (by decide) (by decide) (by decide)
    (by decide) (by decide) (by decide) (by decide)

/-- C8: each of the three first-endpoint failure modes — network error,
non-success status, HTML body (trimmed text starting with `<`) — makes the
attempt fail; whenever the first attempt fails and the second succeeds
with a non-empty body the cascade returns that body without raising, and
the descriptive public-or-published error is raised exactly when both
attempts fail. -/
theorem fetch_fallback :
    (∀ m : String, ∃ e, tryFetch (.netError m) = .error e) ∧
    (∀ b : String, ∃ e, tryFetch (.response false b) = .error e) ∧
    (∀ b : String, leadsWith "<".data (trimStr b).data = true →
      ∃ e, tryFetch (.response true b) = .error e) ∧
    (∀ (r1 r2 : FetchOutcome) (e1 t : String), tryFetch r1 = .error e1 →
      tryFetch r2 = .ok t → t ≠ "" → fetchCsvCascade r1 r2 = .ok t) ∧
    (∀ (r1 r2 : FetchOutcome) (e1 e2 : String), tryFetch r1 = .error e1 →
      tryFetch r2 = .error e2 → fetchCsvCascade r1 r2 =
        .error ("Failed to fetch Google Sheet CSV. Ensure the sheet is public or published to web. ("
          ++ e2 ++ ")")) := by
  refine ⟨fun m => ⟨m, rfl⟩, fun b => ⟨_, rfl⟩, ?_, ?_, ?_⟩
  · intro b hb
    refine ⟨"Received HTML instead of CSV. Make sure the sheet is published to web and publicly accessible.", ?_⟩
    unfold tryFetch
    dsimp only
    rw [if_neg (by decide), if_pos hb]
  · intro r1 r2 e1 t h1 h2 ht
    unfold fetchCsvCascade
    rw [h1, h2]
    dsimp only
    rw [if_neg ht]
  · intro r1 r2 e1 e2 h1 h2
    unfold fetchCsvCascade
    rw [h1, h2]

/-- C8 witness: an HTML body at the published endpoint falls back to the
export endpoint, and a non-success export response yields the descriptive
error. -/
theorem fetch_fallback_witness :
    fetchCsvCascade (.response true "<html>") (.response false "x") =
      .error ("Failed to fetch Google Sheet CSV. Ensure the sheet is public or published to web. ("
        ++ "Failed to fetch sheet CSV" ++ ")") :=
  fetch_fallback.2.2.2.2 (.response true "<html>") (.response false "x")
    "Received HTML instead of CSV. Make sure the sheet is published to web and publicly accessible."
    "Failed to fetch sheet CSV" (by rfl) (by rfl)

/-! ### Row-mapper lemmas -/

theorem leadsWith_self : ∀ l : List Char, leadsWith l l = true := by
  intro l
  induction l with
  | nil => rfl
  | cons c tl ih => simp [leadsWith, ih]

theorem strHas_self (s : String) : strHas s s = true := by
  unfold strHas
  cases h : s.data with
  | nil => simp [hasSub]
  | cons c tl => simp [hasSub, leadsWith_self]

theorem getS_setA_ne (m : Obj) {k k' : String} (v : String) (h : k ≠ k') :
    getS (setA m k' v) k = getS m k := by
  unfold getS
  rw [getA_setA_ne m v h]

theorem getS_setA_self (m : Obj) (k v : String) : getS (setA m k v) k = v := by
  unfold getS
  rw [getA_setA_self]
  rfl

theorem getS_setFirstWins_ne (m : Obj) {k k' : String} (v : String) (h : k ≠ k') :
    getS (setFirstWins m k' v) k = getS m k := by
  unfold setFirstWins
  exact getS_setA_ne m _ h

theorem getS_setFirstWins_self (m : Obj) (k v : String) :
    getS (setFirstWins m k v) k = (if getS m k ≠ "" then getS m k else v) := by
  unfold setFirstWins
  exact getS_setA_self m k _

theorem fieldTarget_classify (c : FieldClass) (k : String) (hc : fieldTarget c = some k) :
    classify k = c := by
  cases c <;> simp [fieldTarget] at hc <;> subst hc <;> decide

theorem fieldTarget_excl (c : FieldClass) (k : String) (hc : fieldTarget c = some k) :
    c ≠ .faddr ∧ c ≠ .fpost ∧ c ≠ .fid ∧ c ≠ .fother := by
  cases c <;> simp [fieldTarget] at hc ⊢

theorem mapStep_target (acc : Obj × Option String) (kv : String × String) (c : FieldClass)
    (k1 : String) (hc : fieldTarget c = some k1)
    (hcl : classify (normalizeHeader kv.1) = c) :
    mapStep acc kv = (setFirstWins acc.1 k1 kv.2, acc.2) := by
  unfold mapStep
  dsimp only
  rw [hcl]
  cases c <;> simp_all [fieldTarget]

theorem mapStep_eq_faddr (acc : Obj × Option String) (kv : String × String)
    (hcl : classify (normalizeHeader kv.1) = .faddr) :
    mapStep acc kv = (setA acc.1 "location" (joinLoc (getS acc.1 "location") kv.2), acc.2) := by
  unfold mapStep joinLoc
  dsimp only
  rw [hcl]

theorem mapStep_eq_fpost (acc : Obj × Option String) (kv : String × String)
    (hcl : classify (normalizeHeader kv.1) = .fpost) :
    mapStep acc kv = (acc.1, some kv.2) := by
  unfold mapStep
  dsimp only
  rw [hcl]

theorem mapStep_eq_fid (acc : Obj × Option String) (kv : String × String)
    (hcl : classify (normalizeHeader kv.1) = .fid) :
    mapStep acc kv = (setA acc.1 "id" kv.2, acc.2) := by
  unfold mapStep
  dsimp only
  rw [hcl]

theorem mapStep_eq_fother (acc : Obj × Option String) (kv : String × String)
    (hcl : classify (normalizeHeader kv.1) = .fother) :
    mapStep acc kv = (setA acc.1 (normalizeHeader kv.1) kv.2, acc.2) := by
  unfold mapStep
  dsimp only
  rw [hcl]

theorem clsVals_cons_eq (c : FieldClass) (kv : String × String) (rest : Obj)
    (h : classify (normalizeHeader kv.1) = c) :
    clsVals c (kv :: rest) = kv.2 :: clsVals c rest := by
  unfold clsVals
  rw [List.filterMap_cons]
  simp [h]

theorem clsVals_cons_ne (c : FieldClass) (kv : String × String) (rest : Obj)
    (h : classify (normalizeHeader kv.1) ≠ c) :
    clsVals c (kv :: rest) = clsVals c rest := by
  unfold clsVals
  rw [List.filterMap_cons]
  simp [h]

theorem ne_location_of_target (c : FieldClass) (k1 : String) (hc : fieldTarget c = some k1) :
    ("location" : String) ≠ k1 := by
  intro he
  have h1 := fieldTarget_classify c k1 hc
  rw [← he] at h1
  exact (fieldTarget_excl c k1 hc).1 ((show classify "location" = .faddr by decide) ▸ h1 :
    FieldClass.faddr = c).symm

theorem ne_location_of_fother {key : String} (hcl : classify key = .fother) :
    ("location" : String) ≠ key := by
  intro he
  rw [← he] at hcl
  exact absurd hcl (by decide)

theorem mapRow_loc_aux : ∀ (row : Obj) (acc : Obj × Option String),
    getS (row.foldl mapStep acc).1 "location"
      = (clsVals .faddr row).foldl joinLoc (getS acc.1 "location") ∧
    (row.foldl mapStep acc).2 = (clsVals .fpost row).foldl (fun _ v => some v) acc.2 := by
  intro row
  induction row with
  | nil => exact fun acc => ⟨rfl, rfl⟩
  | cons kv rest ih =>
    intro acc
    rw [List.foldl_cons]
    have hsix : ∀ (c : FieldClass) (k1 : String), fieldTarget c = some k1 →
        classify (normalizeHeader kv.1) = c →
        getS (rest.foldl mapStep (mapStep acc kv)).1 "location"
          = (clsVals .faddr (kv :: rest)).foldl joinLoc (getS acc.1 "location") ∧
        (rest.foldl mapStep (mapStep acc kv)).2
          = (clsVals .fpost (kv :: rest)).foldl (fun _ v => some v) acc.2 := by
      intro c k1 hc hcl
      obtain ⟨hea, hep, _, _⟩ := fieldTarget_excl c k1 hc
      rw [mapStep_target acc kv c k1 hc hcl,
          clsVals_cons_ne .faddr kv rest (by rw [hcl]; exact hea),
          clsVals_cons_ne .fpost kv rest (by rw [hcl]; exact hep)]
      constructor
      · rw [(ih _).1, getS_setFirstWins_ne acc.1 kv.2 (ne_location_of_target c k1 hc)]
      · exact (ih _).2
    cases hcl : classify (normalizeHeader kv.1) with
    | fname => exact hsix .fname "customer_name" rfl hcl
    | fphone => exact hsix .fphone "customer_phone" rfl hcl
    | femail => exact hsix .femail "customer_email" rfl hcl
    | fsource => exact hsix .fsource "source" rfl hcl
    | fassigned => exact hsix .fassigned "assigned_to" rfl hcl
    | fstatus => exact hsix .fstatus "status" rfl hcl
    | faddr =>
      rw [mapStep_eq_faddr acc kv hcl, clsVals_cons_eq .faddr kv rest hcl,
          clsVals_cons_ne .fpost kv rest (by rw [hcl]; decide)]
      constructor
      · rw [(ih _).1, List.foldl_cons, getS_setA_self]
      · exact (ih _).2
    | fpost =>
      rw [mapStep_eq_fpost acc kv hcl, clsVals_cons_ne .faddr kv rest (by rw [hcl]; decide),
          clsVals_cons_eq .fpost kv rest hcl]
      constructor
      · exact (ih _).1
      · rw [(ih _).2, List.foldl_cons]
    | fid =>
      rw [mapStep_eq_fid acc kv hcl, clsVals_cons_ne .faddr kv rest (by rw [hcl]; decide),
          clsVals_cons_ne .fpost kv rest (by rw [hcl]; decide)]
      constructor
      · rw [(ih _).1, getS_setA_ne acc.1 kv.2 (by decide : ("location" : String) ≠ "id")]
      · exact (ih _).2
    | fother =>
      rw [mapStep_eq_fother acc kv hcl, clsVals_cons_ne .faddr kv rest (by rw [hcl]; decide),
          clsVals_cons_ne .fpost kv rest (by rw [hcl]; decide)]
      constructor
      · rw [(ih _).1, getS_setA_ne acc.1 kv.2 (ne_location_of_fother hcl)]
      · exact (ih _).2

/-- C5: for every row the mapped `location` is the comma-joined aggregate
of the address-class column values in header-encounter order, with the
postcode-class value (the last such column) appended once at the very end
when non-empty, regardless of the postcode column's position; in
particular headers `Street, City, Pincode` with values
`Main St, Springfield, 12345` map to `Main St, Springfield, 12345`, and so
does the postcode-first column order. -/
theorem mapRow_location_aggregation :
    (∀ row : Obj, getS (mapSheetRowToLead row) "location" =
      (match (clsVals .fpost row).foldl (fun _ v => some v) none with
       | some pc => if pc ≠ "" then joinLoc ((clsVals .faddr row).foldl joinLoc "") pc
                    else (clsVals .faddr row).foldl joinLoc ""
       | none => (clsVals .faddr row).foldl joinLoc "")) ∧
    getS (mapSheetRowToLead [("Street", "Main St"), ("City", "Springfield"), ("Pincode", "12345")])
      "location" = "Main St, Springfield, 12345" ∧
    getS (mapSheetRowToLead [("Pincode", "12345"), ("Street", "Main St"), ("City", "Springfield")])
      "location" = "Main St, Springfield, 12345" := by
  refine ⟨?_, by decide, by decide⟩
  intro row
  obtain ⟨ha0, hp⟩ := mapRow_loc_aux row ([], none)
  have ha : getS (row.foldl mapStep ([], none)).1 "location"
      = (clsVals .faddr row).foldl joinLoc "" := ha0
  unfold mapSheetRowToLead
  dsimp only
  rw [hp]
  cases hpc : (clsVals .fpost row).foldl (fun _ v => some v) none with
  | none => exact ha
  | some pc =>
    dsimp only
    by_cases hv : pc = ""
    · subst hv
      rw [if_neg (by simp), if_neg (by simp)]
      exact ha
    · rw [if_pos hv, if_pos hv]
      by_cases hl : getS (row.foldl mapStep ([], none)).1 "location" = ""
      · rw [if_neg (by simp [hl]), getS_setA_self, ← ha, hl]
        simp [joinLoc]
      · rw [if_pos hl, getS_setA_self, ← ha]
        simp [joinLoc, hl]

theorem target_ne_of_classify (c : FieldClass) (k1 : String) (hc : fieldTarget c = some k1)
    (w : String) (cw : FieldClass) (hw : classify w = cw) (hne : c ≠ cw) : k1 ≠ w := by
  intro he
  have h1 := fieldTarget_classify c k1 hc
  rw [he, hw] at h1
  exact hne h1.symm

theorem mapRow_post_preserves (row : Obj) (k0 : String) (hk : k0 ≠ "location") :
    getS (mapSheetRowToLead row) k0 = getS (row.foldl mapStep ([], none)).1 k0 := by
  unfold mapSheetRowToLead
  dsimp only
  cases (row.foldl mapStep ([], none)).2 with
  | none => rfl
  | some pc =>
    dsimp only
    by_cases hv : pc = ""
    · subst hv
      rw [if_neg (by simp)]
    · rw [if_pos hv]
      by_cases hl : getS (row.foldl mapStep ([], none)).1 "location" = ""
      · rw [if_neg (by simp [hl]), getS_setA_ne _ _ hk]
      · rw [if_pos hl, getS_setA_ne _ _ hk]

theorem mapRow_firstWins_aux (c0 : FieldClass) (k0 : String) (hc0 : fieldTarget c0 = some k0) :
    ∀ (row : Obj) (acc : Obj × Option String),
    getS (row.foldl mapStep acc).1 k0
      = (if getS acc.1 k0 ≠ "" then getS acc.1 k0
         else ((clsVals c0 row).filter (fun v => v ≠ "")).headD "") := by
  intro row
  induction row with
  | nil =>
    intro acc
    by_cases h : getS acc.1 k0 = "" <;> simp [h, clsVals]
  | cons kv rest ih =>
    intro acc
    rw [List.foldl_cons]
    by_cases hcc : classify (normalizeHeader kv.1) = c0
    · rw [clsVals_cons_eq c0 kv rest hcc, mapStep_target acc kv c0 k0 hc0 hcc,
          ih (setFirstWins acc.1 k0 kv.2, acc.2)]
      dsimp only
      rw [getS_setFirstWins_self]
      by_cases hA : getS acc.1 k0 = ""
      · by_cases hv : kv.2 = "" <;> simp [hA, hv, List.filter_cons]
      · simp [hA]
    · have hsix : ∀ (c : FieldClass) (k1 : String), fieldTarget c = some k1 →
          classify (normalizeHeader kv.1) = c →
          getS (mapStep acc kv).1 k0 = getS acc.1 k0 := by
        intro c k1 hc hcl
        rw [mapStep_target acc kv c k1 hc hcl]
        dsimp only
        apply getS_setFirstWins_ne
        intro he
        apply hcc
        rw [hcl]
        have e1 := fieldTarget_classify c0 k0 hc0
        have e2 := fieldTarget_classify c k1 hc
        rw [← he] at e2
        exact e2.symm.trans e1
      have hpres : getS (mapStep acc kv).1 k0 = getS acc.1 k0 := by
        cases hcl : classify (normalizeHeader kv.1) with
        | fname => exact hsix .fname "customer_name" rfl hcl
        | fphone => exact hsix .fphone "customer_phone" rfl hcl
        | femail => exact hsix .femail "customer_email" rfl hcl
        | fsource => exact hsix .fsource "source" rfl hcl
        | fassigned => exact hsix .fassigned "assigned_to" rfl hcl
        | fstatus => exact hsix .fstatus "status" rfl hcl
        | faddr =>
          rw [mapStep_eq_faddr acc kv hcl]
          exact getS_setA_ne _ _
            (target_ne_of_classify c0 k0 hc0 "location" .faddr (by decide)
              (fieldTarget_excl c0 k0 hc0).1)
        | fpost =>
          rw [mapStep_eq_fpost acc kv hcl]
        | fid =>
          rw [mapStep_eq_fid acc kv hcl]
          exact getS_setA_ne _ _
            (target_ne_of_classify c0 k0 hc0 "id" .fid (by decide)
              (fieldTarget_excl c0 k0 hc0).2.2.1)
        | fother =>
          rw [mapStep_eq_fother acc kv hcl]
          apply getS_setA_ne
          intro he
          have e1 := fieldTarget_classify c0 k0 hc0
          rw [he, hcl] at e1
          exact (fieldTarget_excl c0 k0 hc0).2.2.2 e1.symm
      rw [clsVals_cons_ne c0 kv rest hcc, ih (mapStep acc kv), hpres]

/-- C6: every first-wins canonical field (customer_name, customer_phone,
customer_email, source, assigned_to, status) ends up holding the first
non-empty value among the columns classified to it, so a later matching
column never displaces an earlier non-empty one; in particular headers
`Name, Full Name` with values `A, B` map `customer_name` to `A`. -/
theorem mapRow_first_wins :
    (∀ (c0 : FieldClass) (k0 : String), fieldTarget c0 = some k0 → ∀ row : Obj,
      getS (mapSheetRowToLead row) k0
        = ((clsVals c0 row).filter (fun v => v ≠ "")).headD "") ∧
    getS (mapSheetRowToLead [("Name", "A"), ("Full Name", "B")]) "customer_name" = "A" := by
  refine ⟨?_, by decide⟩
  intro c0 k0 hc0 row
  rw [mapRow_post_preserves row k0
    (target_ne_of_classify c0 k0 hc0 "location" .faddr (by decide)
      (fieldTarget_excl c0 k0 hc0).1)]
  rw [mapRow_firstWins_aux c0 k0 hc0 row ([], none)]
  simp [getS, getA]

/-- C6 witness. -/
theorem mapRow_first_wins_witness :
    getS (mapSheetRowToLead [("Name", "A"), ("Full Name", "B")]) "customer_name"
      = ((clsVals .fname [("Name", "A"), ("Full Name", "B")]).filter (fun v => v ≠ "")).headD "" :=
  mapRow_first_wins.1 .fname "customer_name" rfl [("Name", "A"), ("Full Name", "B")]

end CRM
